import Mathlib

/-!
Shallow embedding of `src/stack.py`: a minimal stack-based virtual machine
with a bounded value stack, a closed thirteen-opcode instruction set, and a
fetch-dispatch-execute loop driven by an integer program counter.

Layer 1 models instruction construction (`Instruction.__init__`), which
receives a raw opcode string and an optional operand and validates them.
Layer 2 models execution (`StackMachine.run` and the opcode methods) over
the closed tagged instruction set, with `write` output collected in a list
and `print`/`logging` calls dropped as pure observation.
-/

/-- Python constant `TRUE = 1` (src/stack.py line 10). -/
def TRUE : Int := 1

/-- Python constant `FALSE = 0` (src/stack.py line 11). -/
def FALSE : Int := 0

/-- The closed opcode set `INSTRUCTIONS` (src/stack.py lines 13-26). -/
def INSTRUCTIONS : List String :=
  ["add", "negate", "equal", "zero", "one", "loadcon", "br", "br_false",
   "dup", "mpy", "write", "swap", "less"]

/-- Models Python substring containment `pat in s` (used by the operand
check `"loadcon" not in instruction_name` in `Instruction.__init__`). -/
def containsSub (pat s : String) : Bool :=
  (List.range (s.length + 1)).any (fun i => pat.data.isPrefixOf (s.data.drop i))

/-- The `Instruction` value: an opcode name plus an optional operand
(`_instruction_name`, `_instruction_value` in src/stack.py lines 76-77). -/
structure Instruction where
  instruction_name : String
  instruction_value : Option Int
deriving DecidableEq, Repr

/-- The two exceptions `Instruction.__init__` can raise
(src/stack.py lines 74 and 80). -/
inductive InstrError where
  | invalidInstruction (name : String)
  | unexpectedOperand
deriving DecidableEq, Repr

/-- `Instruction.__init__` (src/stack.py lines 66-80): reject an opcode
outside `INSTRUCTIONS`; reject a non-`None` operand when the opcode does not
contain `"loadcon"`; otherwise the instruction is constructed.  There is no
check for `loadcon` without an operand. -/
def Instruction.init (instruction_name : String) (instruction_value : Option Int) :
    Except InstrError Instruction :=
  if instruction_name ∉ INSTRUCTIONS then
    Except.error (InstrError.invalidInstruction instruction_name)
  else if (!containsSub "loadcon" instruction_name) && instruction_value.isSome then
    Except.error InstrError.unexpectedOperand
  else
    Except.ok ⟨instruction_name, instruction_value⟩

/-- The bounded stack (class `Stack`, src/stack.py lines 28-62): a list of
values with the top at the end (`_stack_elements`) and a fixed capacity
(`_size_limit`). -/
structure Stack where
  stack_elements : List Int
  size_limit : Nat
deriving DecidableEq, Repr

/-- `Stack.pop` (src/stack.py lines 44-47): remove and return the last
element; on an empty stack return the `None` sentinel and leave the stack
unchanged. -/
def Stack.pop (s : Stack) : Option Int × Stack :=
  if s.stack_elements.length > 0 then
    (s.stack_elements.getLast?, ⟨s.stack_elements.dropLast, s.size_limit⟩)
  else
    (none, s)

/-- `Stack.push` (src/stack.py lines 49-53): append unless the push would
exceed the size limit, in which case the value is discarded (the Python
code prints a message and returns; no error is raised). -/
def Stack.push (s : Stack) (elem : Int) : Stack :=
  if s.stack_elements.length + 1 > s.size_limit then s
  else ⟨s.stack_elements ++ [elem], s.size_limit⟩

/-- The closed tagged instruction set the engine dispatches over.  The
Python engine dispatches by opcode name via `getattr`; every name in
`INSTRUCTIONS` maps to exactly one method, and only `loadcon` receives its
operand (src/stack.py lines 154-159), so a validated instruction is one of
these thirteen cases. -/
inductive Instr where
  | add
  | negate
  | equal
  | zero
  | one
  | loadcon (value : Int)
  | br
  | br_false
  | dup
  | mpy
  | write
  | swap
  | less
deriving DecidableEq, Repr

/-- `StackMachine` state (src/stack.py lines 93-98): the owned value stack,
the instruction sequence, and the integer program counter; `output` collects
the values printed by the `write` opcode, in order. -/
structure StackMachine where
  value_stack : Stack
  instructions : List Instr
  program_counter : Int
  output : List Int
deriving DecidableEq, Repr

/-- Python list indexing `l[i]` on an `int` index: a negative index counts
from the end (`l[i]` is `l[len(l) + i]` for `-len(l) ≤ i < 0`); an index
outside `[-len(l), len(l))` raises `IndexError`, modelled as `none`. -/
def pyGet (l : List Instr) (i : Int) : Option Instr :=
  let j : Int := if i < 0 then i + l.length else i
  if 0 ≤ j ∧ j < l.length then l.get? j.toNat else none

/-- One opcode method of `StackMachine` (src/stack.py lines 166-270).
Each method first checks its minimum stack size and returns without any
change when it is not met; `Stack.pop` then always yields `some`, so the
`getD 0` defaults below only totalize unreachable `none` cases. -/
def StackMachine.execInstr (m : StackMachine) (instr : Instr) : StackMachine :=
  match instr with
  | Instr.loadcon v => { m with value_stack := m.value_stack.push v }
  | Instr.zero => { m with value_stack := m.value_stack.push 0 }
  | Instr.one => { m with value_stack := m.value_stack.push 1 }
  | Instr.br =>
      if m.value_stack.stack_elements.length < 1 then m
      else
        let p := m.value_stack.pop
        { m with value_stack := p.2,
                 program_counter := m.program_counter + p.1.getD 0 }
  | Instr.br_false =>
      if m.value_stack.stack_elements.length < 2 then m
      else
        let p1 := m.value_stack.pop
        let p2 := p1.2.pop
        if p2.1.getD 0 ≠ TRUE then
          { m with value_stack := p2.2,
                   program_counter := m.program_counter + p1.1.getD 0 }
        else
          { m with value_stack := p2.2 }
  | Instr.add =>
      if m.value_stack.stack_elements.length < 2 then m
      else
        let p1 := m.value_stack.pop
        let p2 := p1.2.pop
        { m with value_stack := p2.2.push (p1.1.getD 0 + p2.1.getD 0) }
  | Instr.negate =>
      if m.value_stack.stack_elements.length < 1 then m
      else
        let p := m.value_stack.pop
        { m with value_stack := p.2.push (p.1.getD 0 * (-1)) }
  | Instr.equal =>
      if m.value_stack.stack_elements.length < 2 then m
      else
        let p1 := m.value_stack.pop
        let p2 := p1.2.pop
        { m with value_stack :=
            p2.2.push (if p1.1.getD 0 = p2.1.getD 0 then TRUE else FALSE) }
  | Instr.less =>
      if m.value_stack.stack_elements.length < 2 then m
      else
        let top := m.value_stack.pop
        let second_top := top.2.pop
        let r : Int := if second_top.1.getD 0 < top.1.getD 0 then TRUE else FALSE
        { m with value_stack := second_top.2.push r }
  | Instr.swap =>
      if m.value_stack.stack_elements.length < 2 then m
      else
        let p1 := m.value_stack.pop
        let p2 := p1.2.pop
        { m with value_stack := (p2.2.push (p1.1.getD 0)).push (p2.1.getD 0) }
  | Instr.mpy =>
      if m.value_stack.stack_elements.length < 2 then m
      else
        let p1 := m.value_stack.pop
        let p2 := p1.2.pop
        { m with value_stack := p2.2.push (p1.1.getD 0 * p2.1.getD 0) }
  | Instr.write =>
      if m.value_stack.stack_elements.length < 1 then m
      else
        let p := m.value_stack.pop
        { m with value_stack := p.2, output := m.output ++ [p.1.getD 0] }
  | Instr.dup =>
      if m.value_stack.stack_elements.length < 1 then m
      else
        let p := m.value_stack.pop
        { m with value_stack := (p.2.push (p.1.getD 0)).push (p.1.getD 0) }

/-- The outcome of one iteration of the `run` loop. -/
inductive StepResult where
  | halted (m : StackMachine)
  | indexError (m : StackMachine)
  | step (m : StackMachine)
deriving DecidableEq, Repr

/-- One iteration of the `while True` loop in `StackMachine.run`
(src/stack.py lines 146-162): when `program_counter > len(instructions) - 1`
the loop breaks; otherwise the instruction at `instructions[program_counter]`
is fetched (Python indexing, so a sufficiently negative counter raises
`IndexError`), executed, and the program counter is then unconditionally
incremented by 1. -/
def StackMachine.runStep (m : StackMachine) : StepResult :=
  if m.program_counter > (m.instructions.length : Int) - 1 then
    StepResult.halted m
  else
    match pyGet m.instructions m.program_counter with
    | none => StepResult.indexError m
    | some instr =>
        let m1 := m.execInstr instr
        StepResult.step { m1 with program_counter := m1.program_counter + 1 }

/-- The outcome of `StackMachine.run` under a fuel bound. -/
inductive RunResult where
  | finished (m : StackMachine)
  | indexError (m : StackMachine)
  | outOfFuel (m : StackMachine)
deriving DecidableEq, Repr

/-- `StackMachine.run` (src/stack.py lines 143-164), iterating `runStep`
with explicit fuel since the Python loop need not terminate. -/
def StackMachine.run (m : StackMachine) (fuel : Nat) : RunResult :=
  match fuel with
  | 0 => RunResult.outOfFuel m
  | Nat.succ n =>
      match m.runStep with
      | StepResult.halted m1 => RunResult.finished m1
      | StepResult.indexError m1 => RunResult.indexError m1
      | StepResult.step m1 => m1.run n

/-- A push or pop request against a `Stack`, for stating properties of
arbitrary operation sequences. -/
inductive StackOp where
  | push (v : Int)
  | pop
deriving DecidableEq, Repr

/-- Apply one `StackOp` to a `Stack`. -/
def Stack.applyOp (s : Stack) (op : StackOp) : Stack :=
  match op with
  | StackOp.push v => s.push v
  | StackOp.pop => (s.pop).2

/-- Apply a sequence of `StackOp`s, first to last. -/
def Stack.applyOps (s : Stack) (ops : List StackOp) : Stack :=
  ops.foldl Stack.applyOp s

/-- The minimum stack size each opcode method checks before acting
(the `if len(self._value_stack) < _` guards in src/stack.py). -/
def minStack : Instr → Nat
  | Instr.dup => 1
  | Instr.negate => 1
  | Instr.write => 1
  | Instr.br => 1
  | Instr.swap => 2
  | Instr.add => 2
  | Instr.mpy => 2
  | Instr.equal => 2
  | Instr.less => 2
  | Instr.br_false => 2
  | Instr.loadcon _ => 0
  | Instr.zero => 0
  | Instr.one => 0

/-- When the program counter passes the loop guard and the fetch succeeds,
one loop iteration executes the fetched instruction and then increments the
program counter by 1. -/
lemma runStep_eq_step (m : StackMachine) (instr : Instr)
    (hpc : ¬ m.program_counter > (m.instructions.length : Int) - 1)
    (hfetch : pyGet m.instructions m.program_counter = some instr) :
    StackMachine.runStep m =
      StepResult.step { m.execInstr instr with
        program_counter := (m.execInstr instr).program_counter + 1 } := by
  unfold StackMachine.runStep
  rw [if_neg hpc, hfetch]

/-- C1 (counterexample): a backward branch drives the program counter to
-1, yet the run does not terminate there: on the program
`[loadcon 7, loadcon -4, br, write]` the `write` at the tail fires (Python
negative indexing) and emits 7, and a single loop iteration from
`program_counter = -1` executes `write` instead of halting. -/
theorem C1_counterexample :
    StackMachine.run
        ⟨⟨[], 10⟩, [Instr.loadcon 7, Instr.loadcon (-4), Instr.br, Instr.write], 0, []⟩ 4 =
      RunResult.outOfFuel
        ⟨⟨[], 10⟩, [Instr.loadcon 7, Instr.loadcon (-4), Instr.br, Instr.write], 0, [7]⟩ ∧
    StackMachine.runStep
        ⟨⟨[7], 10⟩, [Instr.loadcon 7, Instr.loadcon (-4), Instr.br, Instr.write], -1, []⟩ =
      StepResult.step
        ⟨⟨[], 10⟩, [Instr.loadcon 7, Instr.loadcon (-4), Instr.br, Instr.write], 0, [7]⟩ :=
  ⟨rfl, rfl⟩

/-- C1 (amended): the run loop terminates, without fetching or executing,
exactly when the program counter is at least `len(instructions)` before a
fetch; a negative program counter does not terminate the loop. -/
theorem C1_amended_halt_iff_pc_past_end (m : StackMachine) :
    StackMachine.runStep m = StepResult.halted m ↔
      (m.instructions.length : Int) ≤ m.program_counter := by
  unfold StackMachine.runStep
  by_cases h : m.program_counter > (m.instructions.length : Int) - 1
  · rw [if_pos h]
    simp only [true_iff]
    omega
  · rw [if_neg h]
    constructor
    · intro hcontra
      cases hdef : pyGet m.instructions m.program_counter <;>
        rw [hdef] at hcontra <;> simp at hcontra
    · intro hle
      omega

/-- The five-instruction demo program from the spec's branch test:
`[loadcon 1, loadcon 2, br, write, write]`. -/
def braDemoProg : List Instr :=
  [Instr.loadcon 1, Instr.loadcon 2, Instr.br, Instr.write, Instr.write]

/-- C2 (counterexample): running `[loadcon 1, loadcon 2, br, write, write]`
emits nothing at all — the run finishes with empty output and the value 1
still on the stack, so "exactly one write fires, emitting 1" is false. -/
theorem C2_counterexample :
    StackMachine.run ⟨⟨[], 10⟩, braDemoProg, 0, []⟩ 10 =
      RunResult.finished ⟨⟨[1], 10⟩, braDemoProg, 5, []⟩ ∧
    ([] : List Int) ≠ [1] :=
  ⟨rfl, by decide⟩

/-- C2 (amended): on `[loadcon 1, loadcon 2, br, write, write]` the `br`
with popped offset 2 moves the program counter from 2 to 5 (offset plus the
unconditional increment), skipping both `write` instructions and running off
the end: zero writes fire and the run terminates with 1 on the stack. -/
theorem C2_amended_br_skips_two :
    StackMachine.runStep ⟨⟨[1, 2], 10⟩, braDemoProg, 2, []⟩ =
      StepResult.step ⟨⟨[1], 10⟩, braDemoProg, 5, []⟩ ∧
    StackMachine.run ⟨⟨[], 10⟩, braDemoProg, 0, []⟩ 4 =
      RunResult.finished ⟨⟨[1], 10⟩, braDemoProg, 5, []⟩ :=
  ⟨rfl, rfl⟩

/-- C3 (counterexample): constructing an Instruction with opcode `loadcon`
and no operand does not fail — it succeeds and yields a usable Instruction
whose operand is the `None` sentinel. -/
theorem C3_counterexample :
    Instruction.init "loadcon" none =
      Except.ok ⟨"loadcon", none⟩ := by
  rfl

/-- C3 (amended): constructing an Instruction with opcode `loadcon` always
succeeds, whether the operand is present or absent; `Instruction.__init__`
has no missing-operand check. -/
theorem C3_amended_loadcon_always_constructs (v : Option Int) :
    Instruction.init "loadcon" v = Except.ok ⟨"loadcon", v⟩ := by
  have h1 : ("loadcon" : String) ∈ INSTRUCTIONS := by decide
  have h2 : containsSub "loadcon" "loadcon" = true := by decide
  simp [Instruction.init, h1, h2]

/-- C8: construction with an opcode outside the closed thirteen-opcode set
fails with the invalid-opcode error, and construction of a valid non-loadcon
opcode together with a present operand fails with the unexpected-operand
error; both checks run in `Instruction.__init__`, before any execution. -/
theorem C8_construction_validation :
    (∀ (name : String) (v : Option Int), name ∉ INSTRUCTIONS →
      Instruction.init name v = Except.error (InstrError.invalidInstruction name)) ∧
    (∀ (name : String) (v : Int), name ∈ INSTRUCTIONS → name ≠ "loadcon" →
      Instruction.init name (some v) = Except.error InstrError.unexpectedOperand) := by
  constructor
  · intro name v h
    unfold Instruction.init
    rw [if_pos h]
  · intro name v hmem hne
    have hmem' : name = "add" ∨ name = "negate" ∨ name = "equal" ∨ name = "zero" ∨
        name = "one" ∨ name = "loadcon" ∨ name = "br" ∨ name = "br_false" ∨
        name = "dup" ∨ name = "mpy" ∨ name = "write" ∨ name = "swap" ∨
        name = "less" := by
      simpa [INSTRUCTIONS] using hmem
    rcases hmem' with rfl|rfl|rfl|rfl|rfl|rfl|rfl|rfl|rfl|rfl|rfl|rfl|rfl <;>
      first
        | exact absurd rfl hne
        | rfl

/-- C8 (witness): `Instruction.init "foo" none` fails with the
invalid-opcode error and `Instruction.init "add" (some 3)` fails with the
unexpected-operand error. -/
theorem C8_witness :
    Instruction.init "foo" none =
      Except.error (InstrError.invalidInstruction "foo") ∧
    Instruction.init "add" (some 3) =
      Except.error InstrError.unexpectedOperand :=
  ⟨C8_construction_validation.1 "foo" none (by decide),
   C8_construction_validation.2 "add" 3 (by decide) (by decide)⟩

/-- Executing `br` on a machine whose stack has top element `k` pops `k`
and adds it to the program counter. -/
lemma execInstr_br (m : StackMachine) (k : Int)
    (htop : m.value_stack.stack_elements.getLast? = some k) :
    m.execInstr Instr.br =
      { m with
        value_stack := ⟨m.value_stack.stack_elements.dropLast, m.value_stack.size_limit⟩,
        program_counter := m.program_counter + k } := by
  have hlen : m.value_stack.stack_elements.length > 0 := by
    cases h : m.value_stack.stack_elements
    · rw [h] at htop
      simp at htop
    · simp [h]
  simp only [StackMachine.execInstr, Stack.pop, if_pos hlen, htop,
    if_neg (by omega : ¬ m.value_stack.stack_elements.length < 1)]
  rfl

/-- C4: whenever a loop iteration executes a `br` with at least one stack
element, popping offset `k`, the program counter after the iteration equals
the counter before it plus `k` plus 1: the branch adjustment and the
unconditional post-instruction increment both apply. -/
theorem C4_br_net_jump (m : StackMachine) (k : Int)
    (hpc : ¬ m.program_counter > (m.instructions.length : Int) - 1)
    (hfetch : pyGet m.instructions m.program_counter = some Instr.br)
    (htop : m.value_stack.stack_elements.getLast? = some k) :
    StackMachine.runStep m =
      StepResult.step
        ⟨⟨m.value_stack.stack_elements.dropLast, m.value_stack.size_limit⟩,
         m.instructions, m.program_counter + k + 1, m.output⟩ := by
  rw [runStep_eq_step m Instr.br hpc hfetch, execInstr_br m k htop]

/-- C4 (witness): on the one-instruction program `[br]` with stack `[5]`,
the iteration pops 5 and leaves the program counter at 0 + 5 + 1 = 6. -/
theorem C4_witness :
    StackMachine.runStep ⟨⟨[5], 10⟩, [Instr.br], 0, []⟩ =
      StepResult.step ⟨⟨[], 10⟩, [Instr.br], 6, []⟩ :=
  C4_br_net_jump ⟨⟨[5], 10⟩, [Instr.br], 0, []⟩ 5 (by decide) rfl rfl

/-- No opcode method changes the machine when its minimum stack size is
not met: the `if len(...) < n` guard returns early. -/
lemma execInstr_underflow (m : StackMachine) (instr : Instr)
    (hlt : m.value_stack.stack_elements.length < minStack instr) :
    m.execInstr instr = m := by
  cases instr
  case loadcon v => exact absurd hlt (by simp [minStack])
  case zero => exact absurd hlt (by simp [minStack])
  case one => exact absurd hlt (by simp [minStack])
  all_goals (simp only [minStack] at hlt; simp only [StackMachine.execInstr]; rw [if_pos hlt])

/-- C5: when the instruction fetched by a loop iteration has its minimum
stack-size precondition unmet, the iteration raises no error, leaves the
stack contents and the output unchanged, and advances the program counter by
exactly 1; this covers every opcode with a precondition since the others
have minimum 0. -/
theorem C5_underflow_is_noop (m : StackMachine) (instr : Instr)
    (hpc : ¬ m.program_counter > (m.instructions.length : Int) - 1)
    (hfetch : pyGet m.instructions m.program_counter = some instr)
    (hlt : m.value_stack.stack_elements.length < minStack instr) :
    StackMachine.runStep m =
      StepResult.step { m with program_counter := m.program_counter + 1 } := by
  rw [runStep_eq_step m instr hpc hfetch, execInstr_underflow m instr hlt]

/-- C5 (witness): `add` on an empty stack is a no-op whose iteration only
moves the program counter from 0 to 1. -/
theorem C5_witness :
    StackMachine.runStep ⟨⟨[], 10⟩, [Instr.add], 0, []⟩ =
      StepResult.step ⟨⟨[], 10⟩, [Instr.add], 1, []⟩ :=
  C5_underflow_is_noop ⟨⟨[], 10⟩, [Instr.add], 0, []⟩ Instr.add (by decide) rfl
    (by decide)

/-- One push or pop preserves the capacity bound and never changes the
size limit. -/
lemma Stack.applyOp_size_le (s : Stack) (op : StackOp)
    (h : s.stack_elements.length ≤ s.size_limit) :
    (s.applyOp op).stack_elements.length ≤ s.size_limit ∧
      (s.applyOp op).size_limit = s.size_limit := by
  cases op
  case push v =>
    simp only [Stack.applyOp, Stack.push]
    split
    · exact ⟨h, rfl⟩
    · next hguard =>
        refine ⟨?_, rfl⟩
        simp only [List.length_append, List.length_cons, List.length_nil]
        omega
  case pop =>
    simp only [Stack.applyOp, Stack.pop]
    split
    · refine ⟨?_, rfl⟩
      simp only [List.length_dropLast]
      omega
    · exact ⟨h, rfl⟩

/-- A whole sequence of pushes and pops preserves the capacity bound and
the size limit. -/
lemma Stack.applyOps_size_le (ops : List StackOp) (s : Stack)
    (h : s.stack_elements.length ≤ s.size_limit) :
    (s.applyOps ops).stack_elements.length ≤ s.size_limit ∧
      (s.applyOps ops).size_limit = s.size_limit := by
  induction ops generalizing s with
  | nil => exact ⟨h, rfl⟩
  | cons op ops ih =>
    have h1 := Stack.applyOp_size_le s op h
    have h2 := ih (s.applyOp op) (h1.2 ▸ h1.1)
    exact ⟨h1.2 ▸ h2.1, h1.2 ▸ h2.2⟩

/-- Pushing a list of values that fits within the remaining capacity
appends exactly those values. -/
lemma Stack.applyOps_pushes (vs : List Int) (l : List Int) (c : Nat)
    (h : l.length + vs.length ≤ c) :
    Stack.applyOps ⟨l, c⟩ (vs.map StackOp.push) = ⟨l ++ vs, c⟩ := by
  induction vs generalizing l with
  | nil => simp [Stack.applyOps]
  | cons v vs ih =>
    have hstep : Stack.applyOp ⟨l, c⟩ (StackOp.push v) = ⟨l ++ [v], c⟩ := by
      simp only [Stack.applyOp, Stack.push]
      rw [if_neg]
      simp only [List.length_cons] at h
      omega
    show Stack.applyOps (Stack.applyOp ⟨l, c⟩ (StackOp.push v)) (vs.map StackOp.push) = _
    rw [hstep, ih (l ++ [v]) (by simp only [List.length_append, List.length_cons,
      List.length_nil, List.length_cons] at h ⊢; omega)]
    simp

/-- C6: under any sequence of pushes and pops the size of a bounded stack
never exceeds the capacity fixed at construction; a push attempted at full
capacity is a no-op that raises no error and changes neither the contents
nor the size; and a sequence of pushes that does not exceed capacity from
the empty stack stores exactly the pushed values, so the size equals the
number of pushes. -/
theorem C6_bounded_stack (s : Stack) (ops : List StackOp) (v : Int)
    (vs : List Int) (c : Nat) :
    (s.stack_elements.length ≤ s.size_limit →
      (s.applyOps ops).stack_elements.length ≤ s.size_limit) ∧
    (s.stack_elements.length = s.size_limit → s.push v = s) ∧
    (vs.length ≤ c →
      (Stack.applyOps ⟨[], c⟩ (vs.map StackOp.push)).stack_elements = vs) := by
  refine ⟨fun h => (Stack.applyOps_size_le ops s h).1, fun h => ?_, fun h => ?_⟩
  · simp only [Stack.push]
    rw [if_pos]
    omega
  · rw [Stack.applyOps_pushes vs [] c (by simpa using h)]
    simp

/-- C6 (witness): on a stack of capacity 2 holding `[1, 2]`, a push
followed by a pop keeps the size within 2, a push of 7 is an exact no-op,
and pushing `[5, 6]` onto an empty stack of capacity 3 stores `[5, 6]`. -/
theorem C6_witness :
    ((Stack.applyOps ⟨[1, 2], 2⟩ [StackOp.push 9, StackOp.pop]).stack_elements.length ≤ 2) ∧
    (Stack.push ⟨[1, 2], 2⟩ 7 = ⟨[1, 2], 2⟩) ∧
    ((Stack.applyOps ⟨[], 3⟩ ([5, 6].map StackOp.push)).stack_elements = [5, 6]) :=
  ⟨(C6_bounded_stack ⟨[1, 2], 2⟩ [StackOp.push 9, StackOp.pop] 7 [5, 6] 3).1 (by decide),
   (C6_bounded_stack ⟨[1, 2], 2⟩ [StackOp.push 9, StackOp.pop] 7 [5, 6] 3).2.1 (by decide),
   (C6_bounded_stack ⟨[1, 2], 2⟩ [StackOp.push 9, StackOp.pop] 7 [5, 6] 3).2.2 (by decide)⟩

/-- Executing `br_false` on a stack holding `rest ++ [c, k]` (top last)
pops offset `k` then condition `c`, and adds `k` to the program counter
exactly when `c` differs from the truthy sentinel 1. -/
lemma execInstr_br_false (m : StackMachine) (rest : List Int) (c k : Int)
    (hstack : m.value_stack.stack_elements = rest ++ [c, k]) :
    m.execInstr Instr.br_false =
      { m with
        value_stack := ⟨rest, m.value_stack.size_limit⟩,
        program_counter :=
          if c = TRUE then m.program_counter else m.program_counter + k } := by
  obtain ⟨⟨els, lim⟩, ins, pc, out⟩ := m
  simp only at hstack
  subst hstack
  have hassoc : rest ++ [c, k] = (rest ++ [c]) ++ [k] := by simp
  have h1 : (rest ++ [c, k]).getLast? = some k := by
    rw [hassoc]
    exact List.getLast?_concat _
  have h2 : (rest ++ [c, k]).dropLast = rest ++ [c] := by
    rw [hassoc]
    exact List.dropLast_concat
  simp only [StackMachine.execInstr, Stack.pop,
    if_neg (show ¬ (rest ++ [c, k]).length < 2 from by simp),
    if_pos (show (rest ++ [c, k]).length > 0 from by simp),
    h1, h2,
    if_pos (show (rest ++ [c]).length > 0 from by simp),
    List.getLast?_concat, List.dropLast_concat, Option.getD_some]
  by_cases hc : c = TRUE
  · rw [if_neg (show ¬ c ≠ TRUE from by simp [hc]), if_pos hc]
  · rw [if_pos hc, if_neg hc]

/-- C7: a loop iteration executing `br_false` with at least two stack
elements pops offset `k` then condition `c`; when `c` equals 1 the program
counter only advances by the normal 1, and for every other condition value
the offset also applies, a net change of `k + 1`. -/
theorem C7_br_false_control (m : StackMachine) (rest : List Int) (c k : Int)
    (hpc : ¬ m.program_counter > (m.instructions.length : Int) - 1)
    (hfetch : pyGet m.instructions m.program_counter = some Instr.br_false)
    (hstack : m.value_stack.stack_elements = rest ++ [c, k]) :
    StackMachine.runStep m =
      StepResult.step
        ⟨⟨rest, m.value_stack.size_limit⟩, m.instructions,
         (if c = TRUE then m.program_counter + 1 else m.program_counter + k + 1),
         m.output⟩ := by
  rw [runStep_eq_step m Instr.br_false hpc hfetch,
    execInstr_br_false m rest c k hstack]
  by_cases hc : c = TRUE
  · rw [if_pos hc, if_pos hc]
  · rw [if_neg hc, if_neg hc]

/-- C7 (witness): with stack `[1, 3]` (condition 1, offset 3) `br_false`
only advances the counter to 1; with stack `[0, 3]` (condition 0) it lands
at 0 + 3 + 1 = 4. -/
theorem C7_witness :
    StackMachine.runStep ⟨⟨[1, 3], 10⟩, [Instr.br_false], 0, []⟩ =
      StepResult.step ⟨⟨[], 10⟩, [Instr.br_false], 1, []⟩ ∧
    StackMachine.runStep ⟨⟨[0, 3], 10⟩, [Instr.br_false], 0, []⟩ =
      StepResult.step ⟨⟨[], 10⟩, [Instr.br_false], 4, []⟩ := by
  constructor
  · have h := C7_br_false_control ⟨⟨[1, 3], 10⟩, [Instr.br_false], 0, []⟩ [] 1 3
      (by decide) rfl rfl
    simpa [TRUE] using h
  · have h := C7_br_false_control ⟨⟨[0, 3], 10⟩, [Instr.br_false], 0, []⟩ [] 0 3
      (by decide) rfl rfl
    simpa [TRUE] using h

/-- C9: when a branch leaves the program counter negative before a fetch
the run does not terminate: for `-len ≤ pc ≤ -1` the loop fetches and
executes `instructions[len + pc]` (Python negative indexing), and for
`pc < -len` the fetch raises an uncaught IndexError, so `run` is not
exception-free for all instruction sequences. -/
theorem C9_negative_pc_behaviour (m : StackMachine) :
    (-(m.instructions.length : Int) ≤ m.program_counter →
      m.program_counter ≤ -1 →
      ∃ instr,
        m.instructions.get? (m.program_counter + m.instructions.length).toNat =
          some instr ∧
        StackMachine.runStep m =
          StepResult.step { m.execInstr instr with
            program_counter := (m.execInstr instr).program_counter + 1 }) ∧
    (m.program_counter < -(m.instructions.length : Int) →
      StackMachine.runStep m = StepResult.indexError m) := by
  constructor
  · intro h1 h2
    have hneg : m.program_counter < 0 := by omega
    have hlt : (m.program_counter + (m.instructions.length : Int)).toNat <
        m.instructions.length := by omega
    have hfetch : pyGet m.instructions m.program_counter =
        some (m.instructions.get
          ⟨(m.program_counter + m.instructions.length).toNat, hlt⟩) := by
      simp only [pyGet]
      rw [if_pos hneg, if_pos (by constructor <;> omega)]
      exact List.get?_eq_get hlt
    refine ⟨m.instructions.get
      ⟨(m.program_counter + m.instructions.length).toNat, hlt⟩,
      List.get?_eq_get hlt, ?_⟩
    exact runStep_eq_step m _ (by omega) hfetch
  · intro h
    have hpc : ¬ m.program_counter > (m.instructions.length : Int) - 1 := by
      omega
    have hfetch : pyGet m.instructions m.program_counter = none := by
      simp only [pyGet]
      rw [if_pos (by omega : m.program_counter < 0), if_neg (by omega)]
    unfold StackMachine.runStep
    rw [if_neg hpc, hfetch]

/-- C9 (witness): on `[loadcon 7, loadcon -4, br, write]` with counter -1
the loop fetches index 3 (the `write`) and executes it, and on a counter of
-7 against a two-instruction program the fetch raises IndexError. -/
theorem C9_witness :
    (∃ instr,
      ([Instr.loadcon 7, Instr.loadcon (-4), Instr.br, Instr.write]).get?
        ((-1 : Int) + (([Instr.loadcon 7, Instr.loadcon (-4), Instr.br,
          Instr.write] : List Instr).length : Int)).toNat = some instr ∧
      StackMachine.runStep
          ⟨⟨[7], 10⟩, [Instr.loadcon 7, Instr.loadcon (-4), Instr.br, Instr.write], -1, []⟩ =
        StepResult.step
          { (StackMachine.execInstr
              ⟨⟨[7], 10⟩, [Instr.loadcon 7, Instr.loadcon (-4), Instr.br, Instr.write], -1, []⟩
              instr) with
            program_counter :=
              (StackMachine.execInstr
                ⟨⟨[7], 10⟩, [Instr.loadcon 7, Instr.loadcon (-4), Instr.br, Instr.write], -1, []⟩
                instr).program_counter + 1 }) ∧
    StackMachine.runStep ⟨⟨[], 10⟩, [Instr.loadcon (-9), Instr.br], -7, []⟩ =
      StepResult.indexError ⟨⟨[], 10⟩, [Instr.loadcon (-9), Instr.br], -7, []⟩ :=
  ⟨(C9_negative_pc_behaviour
      ⟨⟨[7], 10⟩, [Instr.loadcon 7, Instr.loadcon (-4), Instr.br, Instr.write], -1, []⟩).1
      (by decide) (by decide),
   (C9_negative_pc_behaviour
      ⟨⟨[], 10⟩, [Instr.loadcon (-9), Instr.br], -7, []⟩).2 (by decide)⟩

/-- C10: executing `dup` when the stack is non-empty and its size equals
the capacity leaves the whole machine exactly unchanged: the popped top is
pushed back, and the duplicate is discarded by the soft-overflow policy of
`Stack.push`, so the top element is not duplicated. -/
theorem C10_dup_at_full_capacity (m : StackMachine)
    (hne : m.value_stack.stack_elements ≠ [])
    (hfull : m.value_stack.stack_elements.length = m.value_stack.size_limit) :
    m.execInstr Instr.dup = m := by
  obtain ⟨⟨els, lim⟩, ins, pc, out⟩ := m
  simp only at hne hfull
  rcases List.eq_nil_or_concat els with rfl | ⟨l, a, rfl⟩
  · exact absurd rfl hne
  · simp only [List.concat_eq_append] at hne hfull ⊢
    simp only [StackMachine.execInstr, Stack.pop,
      if_neg (show ¬ (l ++ [a]).length < 1 from by simp),
      if_pos (show (l ++ [a]).length > 0 from by simp),
      List.getLast?_concat, List.dropLast_concat, Option.getD_some]
    have hpush1 : Stack.push ⟨l, lim⟩ a = ⟨l ++ [a], lim⟩ := by
      simp only [Stack.push]
      rw [if_neg (by simp only [List.length_append, List.length_cons,
        List.length_nil] at hfull ⊢; omega)]
    have hpush2 : Stack.push ⟨l ++ [a], lim⟩ a = ⟨l ++ [a], lim⟩ := by
      simp only [Stack.push]
      rw [if_pos (by simp only [List.length_append, List.length_cons,
        List.length_nil] at hfull ⊢; omega)]
    rw [hpush1, hpush2]

/-- C10 (witness): on a stack of capacity 2 already holding `[1, 2]`,
executing `dup` changes nothing. -/
theorem C10_witness :
    StackMachine.execInstr ⟨⟨[1, 2], 2⟩, [], 0, []⟩ Instr.dup =
      ⟨⟨[1, 2], 2⟩, [], 0, []⟩ :=
  C10_dup_at_full_capacity ⟨⟨[1, 2], 2⟩, [], 0, []⟩ (by decide) (by decide)
